import Mathlib

-- A shallow embedding of the HomebridgeMQTTBase class from
-- src/HomebridgeMQTTBase.js.  JavaScript objects holding JSON data are
-- modelled as association lists kept in insertion order, which matches both
-- the mutation semantics of Object.assign and the key order JSON.stringify
-- prints.  The event-loop behaviour (the lodash debounce timer and the
-- asynchronous MQTT publish acknowledgement) is modelled by a small machine
-- driven by a list of externally timed events: the single-shot timer is a
-- stored absolute fire time, and it fires lazily before the next event whose
-- time has reached it, which reproduces the observable interleavings of the
-- single-threaded event loop.

namespace HomebridgeMQTTBase

/-- JSON-serialisable values stored in the state object. -/
inductive JVal where
  | bool (b : Bool)
  | num (n : Int)
  | str (s : String)
  | null
  deriving DecidableEq

/-- A JavaScript object with JSON values, in key insertion order. -/
abbrev AList := List (String × JVal)

/-- Escaping of one character inside a JSON string, as JSON.stringify does for
the quote and backslash characters. -/
def escapeChar (c : Char) : String :=
  if c = '"' then "\\\"" else if c = '\\' then "\\\\" else String.singleton c

/-- Escaping of a whole string for inclusion in JSON output. -/
def escapeStr (s : String) : String :=
  String.join (s.data.map escapeChar)

/-- JSON.stringify on a single value. -/
def stringifyVal : JVal → String
  | .bool true => "true"
  | .bool false => "false"
  | .num n => toString n
  | .str s => "\"" ++ escapeStr s ++ "\""
  | .null => "null"

/-- JSON.stringify on an object: keys in insertion order, no whitespace. -/
def stringify (st : AList) : String :=
  "\x7b" ++
    String.intercalate ","
      (st.map (fun kv => "\"" ++ escapeStr kv.1 ++ "\":" ++ stringifyVal kv.2)) ++
    "\x7d"

/-- Assignment of one key, as JavaScript property write on an object: the
first existing occurrence of the key is overwritten in place, a fresh key is
appended at the end (insertion order). -/
def setKey : AList → String → JVal → AList
  | [], k, v => [(k, v)]
  | kv :: rest, k, v =>
      if kv.1 = k then (k, v) :: rest else kv :: setKey rest k v

/-- Object.assign target source: every own key of the source is written onto
the target, left to right. -/
def objectAssign (s u : AList) : AList :=
  u.foldl (fun acc kv => setKey acc kv.1 kv.2) s

/-- Property lookup on a JavaScript object (first matching key). -/
def getVal : AList → String → Option JVal
  | [], _ => none
  | kv :: rest, k => if kv.1 = k then some kv.2 else getVal rest k

/-- The value of the last entry of the list that writes the given key, if
any.  Used to state the last-writer-wins property of shallow merging. -/
def lastSet (u : AList) (k : String) : Option JVal :=
  u.foldl (fun acc kv => if kv.1 = k then some kv.2 else acc) none

-- A restricted executable model of JSON.parse, covering the canonical
-- payloads the bridge itself produces: an object literal with string keys
-- (no escape sequences) and scalar values, with no interior whitespace.
-- On any input outside this fragment it returns none, modelling the
-- SyntaxError JSON.parse throws on malformed input.

/-- Characters of a JSON string up to the closing quote. -/
def parseStringChars : List Char → Option (List Char × List Char)
  | [] => none
  | c :: rest =>
      if c = '"' then some ([], rest)
      else (parseStringChars rest).map (fun r => (c :: r.1, r.2))

/-- Leading decimal digits of the input. -/
def parseDigits : List Char → List Char × List Char
  | [] => ([], [])
  | c :: rest =>
      if c.isDigit then
        let r := parseDigits rest
        (c :: r.1, r.2)
      else ([], c :: rest)

/-- Numeric value of a digit string. -/
def digitsToNat (ds : List Char) : Nat :=
  ds.foldl (fun n c => n * 10 + (c.toNat - Char.toNat '0')) 0

/-- One scalar JSON value at the head of the input. -/
def parseJVal : List Char → Option (JVal × List Char)
  | 't' :: 'r' :: 'u' :: 'e' :: rest => some (.bool true, rest)
  | 'f' :: 'a' :: 'l' :: 's' :: 'e' :: rest => some (.bool false, rest)
  | 'n' :: 'u' :: 'l' :: 'l' :: rest => some (.null, rest)
  | '"' :: rest =>
      (parseStringChars rest).map (fun r => (.str (String.mk r.1), r.2))
  | '-' :: rest =>
      let r := parseDigits rest
      if r.1 = [] then none
      else some (.num (-(Int.ofNat (digitsToNat r.1))), r.2)
  | c :: rest =>
      if c.isDigit then
        let r := parseDigits (c :: rest)
        some (.num (Int.ofNat (digitsToNat r.1)), r.2)
      else none
  | [] => none

/-- The members of a JSON object after the opening brace, consuming the
closing brace.  The fuel argument bounds recursion depth by input length. -/
def parseMembers : Nat → List Char → Option (AList × List Char)
  | 0, _ => none
  | fuel + 1, cs =>
      match cs with
      | '"' :: rest =>
          match parseStringChars rest with
          | none => none
          | some (key, rest1) =>
              match rest1 with
              | ':' :: rest2 =>
                  match parseJVal rest2 with
                  | none => none
                  | some (v, rest3) =>
                      match rest3 with
                      | ',' :: rest4 =>
                          (parseMembers fuel rest4).map
                            (fun r => ((String.mk key, v) :: r.1, r.2))
                      | '\x7d' :: rest4 => some ([(String.mk key, v)], rest4)
                      | _ => none
              | _ => none
      | _ => none

/-- JSON.parse restricted to flat object literals; none models the thrown
SyntaxError. -/
def parse (s : String) : Option AList :=
  match s.data with
  | '\x7b' :: '\x7d' :: rest => if rest = [] then some [] else none
  | '\x7b' :: rest =>
      match parseMembers (rest.length + 1) rest with
      | some (al, []) => some al
      | _ => none
  | _ => none

/-- The lodash debounce delay used by sendStateToClients, in milliseconds. -/
def quietPeriod : Nat := 20

/-- The outcome handed to the publish completion callback: none on success,
some error value on failure. -/
abbrev Outcome := Option String

/-- The observable instance state of a HomebridgeMQTTBase object.  Callbacks
are identified by numeric ids; a queue entry is some id for a function value
and none for a falsy value such as undefined.  The published, invoked,
log and remoteCalls fields record the externally visible effects: messages
handed to client.publish as topic and payload, completion callback
invocations with their outcome, log lines, and invocations of the
onRemoteStateChange hook. -/
structure M where
  state : AList
  callbackQueue : List (Option Nat)
  timerAt : Option Nat
  inFlight : Nat
  published : List (String × String)
  invoked : List (Nat × Outcome)
  log : List String
  remoteCalls : List AList
  outboundTopic : String
  inboundTopic : String
  deriving DecidableEq

/-- A fresh instance, with the topics used by the repository's test suite. -/
def initM : M :=
  { state := []
    callbackQueue := []
    timerAt := none
    inFlight := 0
    published := []
    invoked := []
    log := []
    remoteCalls := []
    outboundTopic := "foo/bar"
    inboundTopic := "bar/foo" }

/-- The sendMessage method: logs, serialises the payload and hands it to
client.publish.  The publish acknowledgement arrives later as a separate
completion event, so here the call only goes in flight. -/
def sendMessage (m : M) (payload : AList) : M :=
  let message := stringify payload
  { m with
    log := m.log ++ ["Publishing " ++ message ++ " to " ++ m.inboundTopic]
    published := m.published ++ [(m.inboundTopic, message)]
    inFlight := m.inFlight + 1 }

/-- The body of the debounced sendStateToClients function, run when the
debounce timer fires: it calls sendMessage with the current state. -/
def sendStateToClientsFire (m : M) : M :=
  sendMessage m m.state

/-- One iteration of shift draining: the while loop of the publish completion
closure shifts entries until the shifted value is falsy, invoking each truthy
entry with the shared outcome.  Returns the invocations made, in order, and
the queue left behind. -/
def drain : List (Option Nat) → Outcome → List (Nat × Outcome) × List (Option Nat)
  | [], _ => ([], [])
  | none :: rest, _ => ([], rest)
  | some c :: rest, out =>
      let r := drain rest out
      ((c, out) :: r.1, r.2)

/-- The publish acknowledgement: the completion closure passed to sendMessage
runs, draining this.callbackQueue in place with the reported outcome. -/
def completePublish (m : M) (out : Outcome) : M :=
  let r := drain m.callbackQueue out
  { m with
    inFlight := m.inFlight - 1
    callbackQueue := r.2
    invoked := m.invoked ++ r.1 }

/-- The setStateAndEmit method: logs the update, pushes the callback, merges
the update into this.state with Object.assign, and calls the debounced
sendStateToClients, which (re)arms the single-shot timer to fire one quiet
period from now. -/
def setStateAndEmit (m : M) (now : Nat) (upd : AList) (cb : Option Nat) : M :=
  { m with
    log := m.log ++ ["Setting state " ++ stringify upd]
    callbackQueue := m.callbackQueue ++ [cb]
    state := objectAssign m.state upd
    timerAt := some (now + quietPeriod) }

/-- The onMessage handler.  Returns the updated instance and whether an
exception escaped the handler: a message on a foreign topic is ignored;
on the subscribed topic the raw payload is logged, then JSON.parse either
yields a state that is handed to onRemoteStateChange, or throws. -/
def onMessage (m : M) (topic payload : String) : M × Bool :=
  if topic = m.outboundTopic then
    let m1 :=
      { m with
        log := m.log ++ ["Received " ++ payload ++ " from " ++ m.outboundTopic] }
    match parse payload with
    | some st => ({ m1 with remoteCalls := m1.remoteCalls ++ [st] }, false)
    | none => (m1, true)
  else (m, false)

/-- External events driving the machine: a caller invoking setStateAndEmit,
or the MQTT client acknowledging the oldest in-flight publish.  Each carries
the absolute time at which it occurs. -/
inductive Ev where
  | mutate (upd : AList) (cb : Option Nat)
  | complete (out : Outcome)
  deriving DecidableEq

/-- Fire the debounce timer if its fire time has been reached. -/
def fireDue (m : M) (now : Nat) : M :=
  match m.timerAt with
  | none => m
  | some ft =>
      if ft ≤ now then sendStateToClientsFire { m with timerAt := none } else m

/-- Process one timed event: first let a due timer fire, then apply the
event. -/
def stepEv (m : M) (te : Nat × Ev) : M :=
  let m1 := fireDue m te.1
  match te.2 with
  | .mutate upd cb => setStateAndEmit m1 te.1 upd cb
  | .complete out => completePublish m1 out

/-- Run the machine over a time-ordered list of events. -/
def runFrom (m : M) (events : List (Nat × Ev)) : M :=
  events.foldl stepEv m

/-- Let a still-armed timer fire after all events have been processed. -/
def finalFire (m : M) : M :=
  match m.timerAt with
  | none => m
  | some _ => sendStateToClientsFire { m with timerAt := none }

/-- A batch of setStateAndEmit calls: each entry is the call time, the
update object, and the id of the (function-valued) completion callback. -/
abbrev Batch := List (Nat × AList × Nat)

/-- The timed mutate events of a batch. -/
def mkEvs (b : Batch) : List (Nat × Ev) :=
  b.map (fun x => (x.1, Ev.mutate x.2.1 (some x.2.2)))

/-- Whether no debounce fire happens during the batch: each call arrives
strictly before the currently armed fire time. -/
def noFire : Option Nat → Batch → Bool
  | _, [] => true
  | cur, x :: rest =>
      (match cur with
       | none => true
       | some ft => decide (x.1 < ft)) && noFire (some (x.1 + quietPeriod)) rest

/-- The timer state left after a batch of calls. -/
def timerAfter (cur : Option Nat) : Batch → Option Nat
  | [] => cur
  | x :: rest => timerAfter (some (x.1 + quietPeriod)) rest

/-- The concatenation of the update objects of a batch, in call order. -/
def joinUpds (b : Batch) : AList :=
  (b.map (fun x => x.2.1)).flatten

/-- The log lines produced by a batch of setStateAndEmit calls. -/
def logsOf (b : Batch) : List String :=
  b.map (fun x => "Setting state " ++ stringify x.2.1)

/-- Direct application of a batch of setStateAndEmit calls, with no timer
activity in between. -/
def applyBatch (m : M) (b : Batch) : M :=
  b.foldl (fun acc x => setStateAndEmit acc x.1 x.2.1 (some x.2.2)) m

/-- A batch of calls followed by the publish acknowledgement at time tc. -/
def batchRun (m : M) (b : Batch) (tc : Nat) (out : Outcome) : M :=
  runFrom m (mkEvs b ++ [(tc, Ev.complete out)])

/-- The outcomes delivered to callback id c, in order of delivery. -/
def occurrences (c : Nat) (l : List (Nat × Outcome)) : List Outcome :=
  l.filterMap (fun p => if p.1 = c then some p.2 else none)

-- Helper lemmas about the drain loop.

/-- Draining a queue of function callbacks invokes every entry in order with
the shared outcome and empties the queue. -/
theorem drain_map_some (q : List Nat) (out : Outcome) :
    drain (q.map some) out = (q.map (fun c => (c, out)), []) := by
  induction q with
  | nil => rfl
  | cons c q ih => simp [drain, ih]

/-- Draining a queue of function callbacks built by mapping over any list. -/
theorem drain_map_some_of {α : Type} (f : α → Nat) (l : List α) (out : Outcome) :
    drain (l.map (fun a => some (f a))) out = (l.map (fun a => (f a, out)), []) := by
  induction l with
  | nil => rfl
  | cons a l ih => simp [drain, ih]

/-- Draining a queue with a falsy entry stops there: the entries before it
are invoked in order, the falsy entry is removed uninvoked, and everything
after it stays queued. -/
theorem drain_falsy (q1 : List Nat) (rest : List (Option Nat)) (out : Outcome) :
    drain (q1.map some ++ none :: rest) out
      = (q1.map (fun c => (c, out)), rest) := by
  induction q1 with
  | nil => rfl
  | cons c q1 ih => simp [drain, ih]

-- Helper lemmas about Object.assign on association lists.

/-- Lookup after a single key write. -/
theorem getVal_setKey (s : AList) (k' : String) (v : JVal) (k : String) :
    getVal (setKey s k' v) k = if k' = k then some v else getVal s k := by
  induction s with
  | nil => simp [setKey, getVal]
  | cons kv rest ih =>
      by_cases h1 : kv.1 = k'
      · by_cases h2 : k' = k <;> simp [setKey, getVal, h1, h2]
      · have hs : setKey (kv :: rest) k' v = kv :: setKey rest k' v := by
          simp [setKey, h1]
        rw [hs]
        by_cases h2 : kv.1 = k
        · have h3 : ¬k' = k := fun h => h1 (h2.trans h.symm)
          simp [getVal, h2, h3]
        · simp [getVal, h2, ih]

/-- Accumulator form of lastSet: folding from any accumulator agrees with
folding from none except when no entry writes the key. -/
theorem lastSet_foldl_acc (k : String) (u : AList) (acc : Option JVal) :
    u.foldl (fun a kv => if kv.1 = k then some kv.2 else a) acc
      = match u.foldl (fun a kv => if kv.1 = k then some kv.2 else a) none with
        | some v => some v
        | none => acc := by
  induction u generalizing acc with
  | nil => simp
  | cons kv u ih =>
      rw [List.foldl_cons, List.foldl_cons, ih, ih (if kv.1 = k then some kv.2 else none)]
      cases hF : u.foldl (fun a kv => if kv.1 = k then some kv.2 else a) none with
      | some v => simp
      | none => by_cases h : kv.1 = k <;> simp [h]

/-- Pointwise semantics of Object.assign: a key written by the source holds
the last value the source wrote, every other key keeps its target value. -/
theorem getVal_objectAssign (s u : AList) (k : String) :
    getVal (objectAssign s u) k
      = match lastSet u k with
        | some v => some v
        | none => getVal s k := by
  induction u generalizing s with
  | nil => simp [objectAssign, lastSet]
  | cons kv u ih =>
      have h1 : objectAssign s (kv :: u) = objectAssign (setKey s kv.1 kv.2) u := rfl
      have h2 : lastSet (kv :: u) k
          = match lastSet u k with
            | some v => some v
            | none => if kv.1 = k then some kv.2 else none := by
        simp only [lastSet, List.foldl_cons]
        exact lastSet_foldl_acc k u _
      rw [h1, ih, h2]
      cases lastSet u k with
      | some v => rfl
      | none =>
          rw [getVal_setKey]
          by_cases h : kv.1 = k <;> simp [h]

/-- Object.assign over a concatenation of updates is sequential merging. -/
theorem objectAssign_append (s u1 u2 : AList) :
    objectAssign s (u1 ++ u2) = objectAssign (objectAssign s u1) u2 := by
  simp [objectAssign, List.foldl_append]

-- Helper lemmas about machine runs.

/-- Runs compose over concatenation of event lists. -/
theorem runFrom_append (m : M) (l1 l2 : List (Nat × Ev)) :
    runFrom m (l1 ++ l2) = runFrom (runFrom m l1) l2 := by
  simp [runFrom, List.foldl_append]

/-- Applying a batch of setStateAndEmit calls merges all updates, appends all
callbacks, leaves the timer armed as of the last call, and touches nothing
else. -/
theorem applyBatch_eq (m : M) (b : Batch) :
    applyBatch m b
      = { m with
          state := objectAssign m.state (joinUpds b)
          callbackQueue := m.callbackQueue ++ b.map (fun x => some x.2.2)
          timerAt := timerAfter m.timerAt b
          log := m.log ++ logsOf b } := by
  induction b generalizing m with
  | nil => simp [applyBatch, joinUpds, objectAssign, timerAfter, logsOf]
  | cons x b ih =>
      have hstep : applyBatch m (x :: b)
          = applyBatch (setStateAndEmit m x.1 x.2.1 (some x.2.2)) b := by
        simp [applyBatch]
      rw [hstep, ih]
      simp [setStateAndEmit, joinUpds, logsOf, timerAfter,
        objectAssign_append, List.append_assoc]

/-- If every call of a batch arrives before the armed fire time, the run over
its mutate events is the plain application of the batch. -/
theorem runFrom_mkEvs (m : M) (b : Batch) (h : noFire m.timerAt b = true) :
    runFrom m (mkEvs b) = applyBatch m b := by
  induction b generalizing m with
  | nil => rfl
  | cons x b ih =>
      simp only [noFire, Bool.and_eq_true] at h
      have hfd : fireDue m x.1 = m := by
        cases ht : m.timerAt with
        | none => simp [fireDue, ht]
        | some ft =>
            rw [ht] at h
            have hlt : x.1 < ft := of_decide_eq_true h.1
            simp [fireDue, ht, Nat.not_le.mpr hlt]
      have hstep : runFrom m (mkEvs (x :: b))
          = runFrom (setStateAndEmit m x.1 x.2.1 (some x.2.2)) (mkEvs b) := by
        simp [mkEvs, runFrom, stepEv, hfd]
      have hb : noFire (setStateAndEmit m x.1 x.2.1 (some x.2.2)).timerAt b = true := by
        simpa [setStateAndEmit] using h.2
      have happ : applyBatch m (x :: b)
          = applyBatch (setStateAndEmit m x.1 x.2.1 (some x.2.2)) b := by
        simp [applyBatch]
      rw [hstep, ih _ hb, happ]

/-- Full characterisation of one debounced flush cycle: a batch of calls with
no intervening fire, followed by the publish acknowledgement after the last
armed fire time, publishes the merged state once and resolves exactly the
batch's callbacks, in order, with the shared outcome. -/
theorem batchComplete (m : M) (b : Batch) (out : Outcome) (tc ft : Nat)
    (hb : noFire m.timerAt b = true) (hq : m.callbackQueue = [])
    (hft : timerAfter m.timerAt b = some ft) (htc : ft ≤ tc) :
    batchRun m b tc out
      = { m with
          state := objectAssign m.state (joinUpds b)
          callbackQueue := []
          timerAt := none
          published := m.published
            ++ [(m.inboundTopic, stringify (objectAssign m.state (joinUpds b)))]
          invoked := m.invoked ++ b.map (fun x => (x.2.2, out))
          log := m.log ++ logsOf b
            ++ ["Publishing " ++ stringify (objectAssign m.state (joinUpds b))
                ++ " to " ++ m.inboundTopic] } := by
  have h1 : batchRun m b tc out
      = stepEv (applyBatch m b) (tc, Ev.complete out) := by
    rw [batchRun, runFrom_append, runFrom_mkEvs m b hb]
    rfl
  rw [h1, applyBatch_eq]
  simp only [stepEv, fireDue, hft, htc, if_pos htc]
  have hd : drain (b.map (fun x => some x.2.2)) out
      = (b.map (fun x => (x.2.2, out)), []) :=
    drain_map_some_of (fun x => x.2.2) b out
  simp [sendStateToClientsFire, sendMessage, completePublish, hq, hd,
    List.append_assoc]

-- Helper lemmas about the per-callback invocation record.

/-- Occurrences distribute over concatenation of invocation records. -/
theorem occurrences_append (c : Nat) (l1 l2 : List (Nat × Outcome)) :
    occurrences c (l1 ++ l2) = occurrences c l1 ++ occurrences c l2 := by
  simp [occurrences]

/-- A record that never mentions callback c yields no occurrence of c. -/
theorem occurrences_of_not_mem (c : Nat) (l : List (Nat × Outcome))
    (h : ∀ p ∈ l, p.1 ≠ c) : occurrences c l = [] := by
  induction l with
  | nil => rfl
  | cons p l ih =>
      have hp : p.1 ≠ c := h p (List.mem_cons_self p l)
      have hl := ih (fun q hq => h q (List.mem_cons_of_mem p hq))
      simp only [occurrences, List.filterMap_cons, if_neg hp] at *
      exact hl

/-- Invocations of other callbacks with a shared outcome yield no occurrence
of c. -/
theorem occurrences_map_const (c : Nat) (out : Outcome) (l : List Nat)
    (h : c ∉ l) : occurrences c (l.map (fun x => (x, out))) = [] := by
  apply occurrences_of_not_mem
  intro p hp
  simp only [List.mem_map] at hp
  obtain ⟨x, hx, rfl⟩ := hp
  intro hc
  exact h (hc ▸ hx)

/-- A concrete two-call batch used by witnesses: two writes to the key on,
five time units apart, well within one quiet period. -/
def exB : Batch := [(0, [("on", JVal.bool true)], 1), (5, [("on", JVal.bool false)], 2)]

/-- Claim C1, counterexample.  The claim says the pending queue is swapped
out before the Publish Gateway is invoked, so a setStateAndEmit call racing
with the in-flight publish is resolved by the following flush, never the
current one.  In the code the queue is drained in place by the completion
closure, so in this run, where callback 2 is registered at time 21 while the
publish fired at time 20 is still in flight, the single completion at time 30
resolves both callbacks: the claim would require the invocation record after
that completion to be only callback 1. -/
theorem C1_counterexample :
    (runFrom initM [(0, Ev.mutate [] (some 1)), (21, Ev.mutate [] (some 2)),
        (30, Ev.complete none)]).invoked = [(1, none), (2, none)] ∧
    (runFrom initM [(0, Ev.mutate [] (some 1)), (21, Ev.mutate [] (some 2)),
        (30, Ev.complete none)]).callbackQueue = [] ∧
    ¬ (runFrom initM [(0, Ev.mutate [] (some 1)), (21, Ev.mutate [] (some 2)),
        (30, Ev.complete none)]).invoked = [(1, none)] := by
  refine ⟨by decide, by decide, by decide⟩

/-- Claim C1, amended.  sendStateToClients does not swap the pending queue
out before invoking the publish: the publish leaves the queue untouched, and
the queue is drained in place when the publish completes, so every callback
present at completion time, including any registered while the publish was in
flight, is resolved by the current flush.  When every queued entry is a
function value, no callback is dropped or resolved twice: the drain appends
exactly one invocation per queued entry and empties the queue. -/
theorem C1_drain_in_place (m : M) (out : Outcome) (q : List Nat)
    (h : m.callbackQueue = q.map some) :
    (sendStateToClientsFire m).callbackQueue = m.callbackQueue ∧
    (completePublish m out).callbackQueue = [] ∧
    (completePublish m out).invoked = m.invoked ++ q.map (fun c => (c, out)) := by
  refine ⟨rfl, ?_, ?_⟩ <;> simp [completePublish, h, drain_map_some]

/-- Witness for the amended claim C1 at a concrete queue of two callbacks. -/
theorem C1_drain_in_place_witness :
    ({ initM with callbackQueue := [some 5, some 7] } : M).callbackQueue
      = [5, 7].map some ∧
    (completePublish { initM with callbackQueue := [some 5, some 7] }
        (some "E")).invoked
      = ({ initM with callbackQueue := [some 5, some 7] } : M).invoked
        ++ [5, 7].map (fun c => (c, some "E")) :=
  ⟨rfl, (C1_drain_in_place { initM with callbackQueue := [some 5, some 7] }
    (some "E") [5, 7] rfl).2.2⟩

/-- Claim C2: for every flush, each callback registered in the flush's batch
is invoked exactly once, in registration (FIFO) order, and all receive the
identical outcome: the invocation record grows by exactly one entry per
registered callback, in batch order, every entry carrying the same outcome
value, and the queue is left empty. -/
theorem C2_fifo_identical_outcome (m : M) (b : Batch) (out : Outcome)
    (tc ft : Nat) (hb : noFire m.timerAt b = true) (hq : m.callbackQueue = [])
    (hft : timerAfter m.timerAt b = some ft) (htc : ft ≤ tc) :
    (batchRun m b tc out).invoked = m.invoked ++ b.map (fun x => (x.2.2, out)) ∧
    (batchRun m b tc out).callbackQueue = [] := by
  rw [batchComplete m b out tc ft hb hq hft htc]
  exact ⟨rfl, rfl⟩

/-- Witness for claim C2: a two-call batch drained by a failing publish has
both callbacks invoked once, in order, with the same error. -/
theorem C2_witness :
    noFire initM.timerAt exB = true ∧
    (batchRun initM exB 30 (some "E")).invoked
      = [(1, some "E"), (2, some "E")] := by
  refine ⟨by decide, ?_⟩
  have h := C2_fifo_identical_outcome initM exB (some "E") 30 25
    (by decide) rfl (by decide) (by decide)
  rw [h.1]
  decide

/-- Claim C3: the snapshot handed to the publish is the left-to-right shallow
merge of all the batch's updates applied to the prior snapshot, the payload
is the serialisation of that full merged state (not a delta), and pointwise
every key written by some update holds the last value written while every
other key keeps its prior value. -/
theorem C3_merged_snapshot_published (m : M) (b : Batch) (out : Outcome)
    (tc ft : Nat) (hb : noFire m.timerAt b = true) (hq : m.callbackQueue = [])
    (hft : timerAfter m.timerAt b = some ft) (htc : ft ≤ tc) :
    (batchRun m b tc out).published
      = m.published
        ++ [(m.inboundTopic, stringify (objectAssign m.state (joinUpds b)))] ∧
    (batchRun m b tc out).state = objectAssign m.state (joinUpds b) ∧
    ∀ k, getVal (objectAssign m.state (joinUpds b)) k
        = match lastSet (joinUpds b) k with
          | some v => some v
          | none => getVal m.state k := by
  refine ⟨?_, ?_, fun k => getVal_objectAssign m.state (joinUpds b) k⟩ <;>
    rw [batchComplete m b out tc ft hb hq hft htc]

/-- Witness for claim C3: two writes to the same key publish one payload
holding the later value. -/
theorem C3_witness :
    (batchRun initM exB 30 none).published
      = [("bar/foo", "\x7b\"on\":false\x7d")] ∧
    getVal (objectAssign initM.state (joinUpds exB)) "on"
      = some (JVal.bool false) := by
  have h := C3_merged_snapshot_published initM exB none 30 25
    (by decide) rfl (by decide) (by decide)
  constructor
  · rw [h.1]; decide
  · rw [h.2.2 "on"]; decide

/-- Claim C4, counterexample.  The claim says two groups of calls separated
by an idle gap longer than the quiet period produce two publishes with two
INDEPENDENTLY drained callback batches.  An idle gap only constrains the
callers, not the broker acknowledgment: in this run callback 1 is registered
at time 0, callback 2 at time 30 (gap 30, longer than the quiet period of
20), the first publish fires at time 20 but is acknowledged only at time 35,
after the second call.  Because the completion closure drains
this.callbackQueue in place, the first acknowledgment resolves BOTH
callbacks with the first flush's error, and the second flush's completion
at time 60 drains nothing: the batches are not independent, although two
publishes do occur. -/
theorem C4_counterexample :
    quietPeriod < 30 ∧
    (runFrom initM [(0, Ev.mutate [("on", JVal.bool true)] (some 1)),
        (30, Ev.mutate [("on", JVal.bool false)] (some 2)),
        (35, Ev.complete (some "E1")), (60, Ev.complete none)]).published.length
      = 2 ∧
    (runFrom initM [(0, Ev.mutate [("on", JVal.bool true)] (some 1)),
        (30, Ev.mutate [("on", JVal.bool false)] (some 2)),
        (35, Ev.complete (some "E1")), (60, Ev.complete none)]).invoked
      = [(1, some "E1"), (2, some "E1")] ∧
    ¬ (runFrom initM [(0, Ev.mutate [("on", JVal.bool true)] (some 1)),
        (30, Ev.mutate [("on", JVal.bool false)] (some 2)),
        (35, Ev.complete (some "E1")), (60, Ev.complete none)]).invoked
      = [(1, some "E1"), (2, none)] := by
  refine ⟨by decide, by decide, by decide, by decide⟩

/-- Claim C4, amended.  First part, unchanged: a group of setStateAndEmit
calls that all arrive before the rearmed timer fires produces exactly one
publish when the timer finally fires, regardless of the group's size.
Second part, amended as the counterexample forces: two groups separated by
an idle gap longer than the quiet period produce exactly two publishes, and
the callback batches are drained independently, each with its own flush's
outcome, PROVIDED the first publish is acknowledged before the second group
begins — otherwise the first acknowledgment's in-place drain also resolves
the second group's callbacks. -/
theorem C4_debounce_collapsing :
    (∀ (m : M) (b : Batch) (ft : Nat), noFire m.timerAt b = true →
      timerAfter m.timerAt b = some ft →
      (finalFire (runFrom m (mkEvs b))).published
        = m.published
          ++ [(m.inboundTopic, stringify (objectAssign m.state (joinUpds b)))]) ∧
    (∀ (m : M) (b1 b2 : Batch) (o1 o2 : Outcome) (tc1 tc2 ft1 ft2 : Nat),
      m.callbackQueue = [] →
      noFire m.timerAt b1 = true → timerAfter m.timerAt b1 = some ft1 →
      ft1 ≤ tc1 →
      (∀ x ∈ b2, tc1 ≤ x.1) →
      noFire none b2 = true → timerAfter (none : Option Nat) b2 = some ft2 →
      ft2 ≤ tc2 →
      (runFrom m (mkEvs b1 ++ [(tc1, Ev.complete o1)] ++ mkEvs b2
          ++ [(tc2, Ev.complete o2)])).published
        = m.published
          ++ [(m.inboundTopic, stringify (objectAssign m.state (joinUpds b1))),
              (m.inboundTopic,
               stringify (objectAssign (objectAssign m.state (joinUpds b1))
                 (joinUpds b2)))] ∧
      (runFrom m (mkEvs b1 ++ [(tc1, Ev.complete o1)] ++ mkEvs b2
          ++ [(tc2, Ev.complete o2)])).invoked
        = m.invoked ++ b1.map (fun x => (x.2.2, o1))
          ++ b2.map (fun x => (x.2.2, o2))) := by
  constructor
  · intro m b ft hb hft
    rw [runFrom_mkEvs m b hb, applyBatch_eq]
    simp [finalFire, hft, sendStateToClientsFire, sendMessage]
  · intro m b1 b2 o1 o2 tc1 tc2 ft1 ft2 hq h1 hft1 htc1 hgap h2 hft2 htc2
    have e1 : mkEvs b1 ++ [(tc1, Ev.complete o1)] ++ mkEvs b2
        ++ [(tc2, Ev.complete o2)]
        = (mkEvs b1 ++ [(tc1, Ev.complete o1)])
          ++ (mkEvs b2 ++ [(tc2, Ev.complete o2)]) := by
      simp [List.append_assoc]
    have hb1 := batchComplete m b1 o1 tc1 ft1 h1 hq hft1 htc1
    rw [e1, runFrom_append,
      show runFrom m (mkEvs b1 ++ [(tc1, Ev.complete o1)])
        = batchRun m b1 tc1 o1 from rfl, hb1]
    rw [show runFrom _ (mkEvs b2 ++ [(tc2, Ev.complete o2)])
        = batchRun _ b2 tc2 o2 from rfl,
      batchComplete _ b2 o2 tc2 ft2 h2 rfl hft2 htc2]
    exact ⟨by simp, by simp [List.append_assoc]⟩

/-- Witness for the amended claim C4: a two-call group publishes once; that group
followed, after its flush completed, by a one-call group publishes twice and
drains the two batches independently with different outcomes. -/
theorem C4_witness :
    (finalFire (runFrom initM (mkEvs exB))).published
      = [("bar/foo", "\x7b\"on\":false\x7d")] ∧
    (runFrom initM (mkEvs exB ++ [(30, Ev.complete none)]
        ++ mkEvs [(50, [("on", JVal.bool true)], 3)]
        ++ [(80, Ev.complete (some "E"))])).published
      = [("bar/foo", "\x7b\"on\":false\x7d"), ("bar/foo", "\x7b\"on\":true\x7d")] ∧
    (runFrom initM (mkEvs exB ++ [(30, Ev.complete none)]
        ++ mkEvs [(50, [("on", JVal.bool true)], 3)]
        ++ [(80, Ev.complete (some "E"))])).invoked
      = [(1, none), (2, none), (3, some "E")] := by
  have hone := C4_debounce_collapsing.1 initM exB 25 (by decide) (by decide)
  have htwo := C4_debounce_collapsing.2 initM exB
    [(50, [("on", JVal.bool true)], 3)] none (some "E") 30 80 25 70
    rfl (by decide) (by decide) (by decide) (by decide) (by decide) (by decide)
    (by decide)
  refine ⟨?_, ?_, ?_⟩
  · rw [hone]; decide
  · rw [htwo.1]; decide
  · rw [htwo.2]; decide

/-- Claim C5, counterexample.  The claim says processing a malformed payload
on the subscribed topic does not crash the process.  In the code JSON.parse
is called with no surrounding try/catch, so on the malformed payload below
the SyntaxError escapes the onMessage handler uncaught (the thrown flag of
the model is true), contradicting the claim. -/
theorem C5_counterexample :
    parse "not json" = none ∧
    (onMessage initM "foo/bar" "not json").2 = true ∧
    ¬ (onMessage initM "foo/bar" "not json").2 = false := by
  refine ⟨rfl, by decide, by decide⟩

/-- Claim C5, amended.  Processing a malformed payload on the subscribed
topic logs the raw payload (it is not silently swallowed) and leaves the
Coalescer's state snapshot, pending callback queue and invocation record
untouched, but the JSON.parse exception escapes the handler uncaught instead
of being contained. -/
theorem C5_malformed_payload (m : M) (payload : String)
    (h : parse payload = none) :
    (onMessage m m.outboundTopic payload).2 = true ∧
    (onMessage m m.outboundTopic payload).1.state = m.state ∧
    (onMessage m m.outboundTopic payload).1.callbackQueue = m.callbackQueue ∧
    (onMessage m m.outboundTopic payload).1.invoked = m.invoked ∧
    (onMessage m m.outboundTopic payload).1.remoteCalls = m.remoteCalls ∧
    (onMessage m m.outboundTopic payload).1.log
      = m.log ++ ["Received " ++ payload ++ " from " ++ m.outboundTopic] := by
  simp [onMessage, h]

/-- Witness for the amended claim C5 at a concrete malformed payload. -/
theorem C5_malformed_payload_witness :
    parse "not json" = none ∧
    (onMessage initM initM.outboundTopic "not json").2 = true ∧
    (onMessage initM initM.outboundTopic "not json").1.state = initM.state :=
  ⟨rfl, (C5_malformed_payload initM "not json" rfl).1,
    (C5_malformed_payload initM "not json" rfl).2.1⟩

/-- Claim C6: onComplete is never invoked synchronously during the
setStateAndEmit call itself (the call leaves the invocation record
untouched), and a callback registered in a batch is eventually invoked
exactly once, with the outcome of the flush that drains it. -/
theorem C6_async_exactly_once :
    (∀ (m : M) (now : Nat) (upd : AList) (cb : Option Nat),
      (setStateAndEmit m now upd cb).invoked = m.invoked) ∧
    (∀ (m : M) (b : Batch) (out : Outcome) (tc ft c : Nat) (l1 l2 : List Nat),
      noFire m.timerAt b = true → m.callbackQueue = [] →
      timerAfter m.timerAt b = some ft → ft ≤ tc →
      b.map (fun x => x.2.2) = l1 ++ c :: l2 → c ∉ l1 → c ∉ l2 →
      (∀ p ∈ m.invoked, p.1 ≠ c) →
      occurrences c (batchRun m b tc out).invoked = [out]) := by
  constructor
  · intro m now upd cb
    rfl
  · intro m b out tc ft c l1 l2 hb hq hft htc hsplit h1 h2 hm
    rw [batchComplete m b out tc ft hb hq hft htc]
    have hmap : b.map (fun x => (x.2.2, out))
        = l1.map (fun y => (y, out)) ++ (c, out) :: l2.map (fun y => (y, out)) := by
      have hcomp : b.map (fun x => (x.2.2, out))
          = (b.map (fun x => x.2.2)).map (fun y => (y, out)) := by
        simp [List.map_map]
      rw [hcomp, hsplit]
      simp
    show occurrences c (m.invoked ++ b.map (fun x => (x.2.2, out))) = [out]
    rw [hmap, occurrences_append, occurrences_of_not_mem c m.invoked hm,
      occurrences_append, occurrences_map_const c out l1 h1]
    simp only [occurrences, List.filterMap_cons, if_pos rfl, List.nil_append]
    have h2o := occurrences_map_const c out l2 h2
    simp only [occurrences] at h2o
    rw [h2o]
    simp

/-- Witness for claim C6: a fresh setStateAndEmit call invokes nothing, and
callback 2 of the two-call batch is invoked exactly once, with the error of
the flush that drained it. -/
theorem C6_witness :
    (setStateAndEmit initM 0 [] (some 9)).invoked = initM.invoked ∧
    occurrences 2 (batchRun initM exB 30 (some "E")).invoked = [some "E"] :=
  ⟨C6_async_exactly_once.1 initM 0 [] (some 9),
    C6_async_exactly_once.2 initM exB (some "E") 30 25 2 [1] []
      (by decide) rfl (by decide) (by decide) (by decide) (by decide)
      (by decide) (by decide)⟩

/-- Claim C7: onRemoteStateChange is invoked exactly when a message arrives
on the subscribed outbound topic (and its payload parses), and then with the
JSON-parsed state mapping; a message on any other topic changes nothing at
all: no hook call, no log output. -/
theorem C7_topic_filter (m : M) (topic payload : String) (st : AList) :
    (topic ≠ m.outboundTopic → onMessage m topic payload = (m, false)) ∧
    (topic = m.outboundTopic → parse payload = some st →
      (onMessage m topic payload).1.remoteCalls = m.remoteCalls ++ [st] ∧
      (onMessage m topic payload).1.state = m.state ∧
      (onMessage m topic payload).2 = false) := by
  constructor
  · intro h
    simp [onMessage, h]
  · intro h hp
    subst h
    simp [onMessage, hp]

/-- Witness for claim C7: a foreign-topic message leaves the instance
untouched, and a subscribed-topic message hands the parsed mapping to the
hook. -/
theorem C7_witness :
    onMessage initM "other/topic" "\x7b\x7d" = (initM, false) ∧
    (onMessage initM "foo/bar" "\x7b\"on\":true\x7d").1.remoteCalls
      = initM.remoteCalls ++ [[("on", JVal.bool true)]] :=
  ⟨(C7_topic_filter initM "other/topic" "\x7b\x7d" []).1 (by decide),
    ((C7_topic_filter initM "foo/bar" "\x7b\"on\":true\x7d"
      [("on", JVal.bool true)]).2 (by decide) (by decide)).1⟩

/-- Claim C8: a setStateAndEmit call with an empty update object still
appends its callback to the pending queue, leaves the snapshot unchanged,
rearms the quiet-period timer, and when the timer fires a publish still
occurs whose completion resolves that callback with the flush's outcome. -/
theorem C8_empty_update (m : M) (now tc c : Nat) (out : Outcome)
    (hq : m.callbackQueue = []) (ht : m.timerAt = none)
    (htc : now + quietPeriod ≤ tc) :
    (setStateAndEmit m now [] (some c)).state = m.state ∧
    (setStateAndEmit m now [] (some c)).callbackQueue
      = m.callbackQueue ++ [some c] ∧
    (setStateAndEmit m now [] (some c)).timerAt = some (now + quietPeriod) ∧
    (batchRun m [(now, [], c)] tc out).published
      = m.published ++ [(m.inboundTopic, stringify m.state)] ∧
    (batchRun m [(now, [], c)] tc out).invoked = m.invoked ++ [(c, out)] := by
  have hb : noFire m.timerAt [(now, ([] : AList), c)] = true := by
    simp [noFire, ht]
  have hft : timerAfter m.timerAt [(now, ([] : AList), c)]
      = some (now + quietPeriod) := rfl
  have h := batchComplete m [(now, [], c)] out tc (now + quietPeriod)
    hb hq hft htc
  refine ⟨rfl, rfl, rfl, ?_, ?_⟩ <;> rw [h] <;> simp [joinUpds, objectAssign]

/-- Witness for claim C8 at a concrete empty mutation. -/
theorem C8_witness :
    (setStateAndEmit initM 0 [] (some 3)).state = initM.state ∧
    (batchRun initM [(0, [], 3)] 20 none).published
      = [("bar/foo", "\x7b\x7d")] ∧
    (batchRun initM [(0, [], 3)] 20 none).invoked = [(3, none)] := by
  have h := C8_empty_update initM 0 20 3 none rfl rfl (by decide)
  refine ⟨h.1, ?_, ?_⟩
  · rw [h.2.2.2.1]; decide
  · rw [h.2.2.2.2]; decide

/-- Claim C9: Object.assign only touches the keys named in the update: any
key of the snapshot not written by the update keeps its value across a
setStateAndEmit call. -/
theorem C9_frame (m : M) (now : Nat) (upd : AList) (cb : Option Nat)
    (k : String) (h : lastSet upd k = none) :
    getVal (setStateAndEmit m now upd cb).state k = getVal m.state k := by
  show getVal (objectAssign m.state upd) k = getVal m.state k
  rw [getVal_objectAssign, h]

/-- Witness for claim C9: writing the key other leaves the key on intact. -/
theorem C9_witness :
    lastSet [("other", JVal.bool true)] "on" = none ∧
    getVal (setStateAndEmit { initM with state := [("on", JVal.bool false)] }
        0 [("other", JVal.bool true)] (some 1)).state "on"
      = getVal ({ initM with state := [("on", JVal.bool false)] } : M).state
          "on" :=
  ⟨by decide, C9_frame { initM with state := [("on", JVal.bool false)] } 0
    [("other", JVal.bool true)] (some 1) "on" (by decide)⟩

/-- Claim C10: a falsy queue entry stops the drain: entries before it are
each invoked with this flush's outcome, the falsy entry itself is removed
without being invoked, and every entry after it is not invoked by this flush
and remains queued, to be drained by a later flush with that later flush's
outcome. -/
theorem C10_falsy_stops_drain (m : M) (out out2 : Outcome) (q1 q2 : List Nat)
    (h : m.callbackQueue = q1.map some ++ none :: q2.map some) :
    (completePublish m out).invoked = m.invoked ++ q1.map (fun c => (c, out)) ∧
    (completePublish m out).callbackQueue = q2.map some ∧
    (completePublish (completePublish m out) out2).invoked
      = m.invoked ++ q1.map (fun c => (c, out))
        ++ q2.map (fun c => (c, out2)) ∧
    (completePublish (completePublish m out) out2).callbackQueue = [] := by
  have h1 := drain_falsy q1 (q2.map some) out
  refine ⟨?_, ?_, ?_, ?_⟩ <;>
    simp [completePublish, h, h1, drain_map_some, List.append_assoc]

/-- Witness for claim C10 at the concrete queue of callback 1, a falsy
entry, then callback 2: the first drain resolves only callback 1, the second
drain resolves callback 2 with the second outcome. -/
theorem C10_witness :
    ({ initM with callbackQueue := [some 1, none, some 2] } : M).callbackQueue
      = [1].map some ++ none :: [2].map some ∧
    (completePublish { initM with callbackQueue := [some 1, none, some 2] }
        none).invoked = [(1, none)] ∧
    (completePublish (completePublish
        { initM with callbackQueue := [some 1, none, some 2] } none)
        (some "E")).invoked = [(1, none), (2, some "E")] := by
  have h := C10_falsy_stops_drain
    { initM with callbackQueue := [some 1, none, some 2] } none (some "E")
    [1] [2] rfl
  refine ⟨rfl, ?_, ?_⟩
  · rw [h.1]; decide
  · rw [h.2.2.1]; decide

end HomebridgeMQTTBase
